import Mathlib

/-!
# Verification of the rubrix weak-supervision label aggregation core

Shallow embedding of `src/rubrix/labeling/text_classification/label_models.py`
(the `MajorityVoter` label model and its helpers), with theorems settling the
frozen claims about the natural-language specification.

Embedding conventions:
* numpy float64 probabilities are modelled as exact rationals `ℚ`; the numeric
  literals `1e-8` (tie tolerance) and `1e-4` (tie-break nudge) become the exact
  rationals `1/10^8` and `1/10^4`;
* the `hashlib.sha1` digest used for deterministic tie breaking is implemented
  bit-for-bit over `Nat` (32-bit words are `Nat` values reduced `% 2^32`);
* numpy's `argsort` (ascending, stable for the small arrays at hand) is
  modelled as a merge sort of the index list under the lexicographic order
  (value, index), which is exactly the stable ascending argsort;
* Python exceptions become `Except` results; a `NaN` probability entry in the
  multi-label path becomes `Option.none`;
* label codes are the dense zero-based codes of §3 of the spec
  (`code(labels[j]) = j`, abstain = `-1`), so the `label2int`/`int2label`
  round-trips in the source are identities.
-/

namespace Rubrix

/-! ## SHA-1 over `Nat` (faithful model of `hashlib.sha1`) -/

/-- Reduce to a 32-bit word. -/
def w32 (x : Nat) : Nat := x % 4294967296

/-- Rotate a 32-bit word left by `n` bits. -/
def rotl (n x : Nat) : Nat := w32 (x * 2 ^ n + x / 2 ^ (32 - n))

/-- The SHA-1 round function `f_t`. -/
def sha1f (t b c d : Nat) : Nat :=
  if t < 20 then (b &&& c) ||| ((b ^^^ 4294967295) &&& d)
  else if t < 40 then b ^^^ c ^^^ d
  else if t < 60 then (b &&& c) ||| (b &&& d) ||| (c &&& d)
  else b ^^^ c ^^^ d

/-- The SHA-1 round constant `K_t`. -/
def sha1K (t : Nat) : Nat :=
  if t < 20 then 1518500249
  else if t < 40 then 1859775393
  else if t < 60 then 2400959708
  else 3395469782

/-- Group a byte list into big-endian 32-bit words. -/
def bytesToWords : List Nat → List Nat
  | b0 :: b1 :: b2 :: b3 :: rest =>
      (b0 * 16777216 + b1 * 65536 + b2 * 256 + b3) :: bytesToWords rest
  | _ => []

/-- Extend the 16 chunk words by `n` further schedule words
`W_t = rotl 1 (W_(t-3) xor W_(t-8) xor W_(t-14) xor W_(t-16))`. -/
def sha1Extend (ws : List Nat) : Nat → List Nat
  | 0 => ws
  | Nat.succ n =>
      let m := ws.length
      let w := rotl 1 ((ws.getD (m - 3) 0) ^^^ (ws.getD (m - 8) 0) ^^^
        (ws.getD (m - 14) 0) ^^^ (ws.getD (m - 16) 0))
      sha1Extend (ws ++ [w]) n

/-- One SHA-1 compression step over state `(a,b,c,d,e)`. -/
def sha1Step (st : Nat × Nat × Nat × Nat × Nat) (tw : Nat × Nat) :
    Nat × Nat × Nat × Nat × Nat :=
  match st, tw with
  | (a, b, c, d, e), (t, wt) =>
      (w32 (rotl 5 a + sha1f t b c d + e + sha1K t + wt), a, rotl 30 b, c, d)

/-- Compress one 64-byte chunk into the running hash state. -/
def sha1Compress (st : Nat × Nat × Nat × Nat × Nat) (chunk : List Nat) :
    Nat × Nat × Nat × Nat × Nat :=
  match st with
  | (h0, h1, h2, h3, h4) =>
      let ws := sha1Extend (bytesToWords chunk) 64
      match (List.zip (List.range 80) ws).foldl sha1Step (h0, h1, h2, h3, h4) with
      | (a, b, c, d, e) =>
          (w32 (h0 + a), w32 (h1 + b), w32 (h2 + c), w32 (h3 + d), w32 (h4 + e))

/-- Big-endian byte expansion of a natural number into `n` bytes. -/
def natToBytesBE (n x : Nat) : List Nat :=
  (List.range n).map (fun i => x / 256 ^ (n - 1 - i) % 256)

/-- SHA-1 padding: append `0x80`, zero bytes up to 56 mod 64, then the bit
length as 8 big-endian bytes. -/
def sha1Pad (msg : List Nat) : List Nat :=
  let len := msg.length
  let zeros := (119 - len % 64) % 64
  msg ++ [128] ++ List.replicate zeros 0 ++ natToBytesBE 8 (8 * len)

/-- Fold the compression function over all 64-byte chunks; the first argument
is recursion fuel (any bound on the number of chunks), kept structural so the
kernel can evaluate the definition. -/
def sha1Chunks : Nat → Nat × Nat × Nat × Nat × Nat → List Nat →
    Nat × Nat × Nat × Nat × Nat
  | 0, st, _ => st
  | Nat.succ f, st, l =>
      if l.isEmpty then st
      else sha1Chunks f (sha1Compress st (l.take 64)) (l.drop 64)

/-- The SHA-1 digest of a byte string, as the big-endian 160-bit integer that
Python's `int(hashlib.sha1(msg).hexdigest(), 16)` denotes. -/
def sha1Nat (msg : List Nat) : Nat :=
  let padded := sha1Pad msg
  match sha1Chunks padded.length
      (1732584193, 4023233417, 2562383102, 271733878, 3285377520) padded with
  | (h0, h1, h2, h3, h4) =>
      ((((h0 * 4294967296 + h1) * 4294967296 + h2) * 4294967296 + h3) *
        4294967296 + h4)

/-- Decimal digits of a natural number, most significant first; the first
argument is recursion fuel (any bound on the number of digits). -/
def decDigits : Nat → Nat → List Nat → List Nat
  | 0, _, acc => acc
  | Nat.succ f, n, acc =>
      if n = 0 then acc else decDigits f (n / 10) (n % 10 :: acc)

/-- The ASCII bytes of the decimal string `f"{i}"`. -/
def decString (i : Nat) : List Nat :=
  if i = 0 then [48] else (decDigits i i []).map (fun d => 48 + d)

/-- `int(hashlib.sha1(f"{i}".encode()).hexdigest(), 16)`: the hash of a row
index used for deterministic tie breaking. -/
def rowIndexHash (i : Nat) : Nat := sha1Nat (decString i)

/-! ## Data model -/

/-- A record, as consumed by the label models: an opaque payload (`id`) plus
the two fields the prediction assembler writes (`prediction`,
`prediction_agent`).  `rec.copy(deep=True)` followed by field assignment in
the source becomes a functional update here. -/
structure TextClassificationRecord where
  id : Nat
  prediction : Option (List (String × ℚ)) := none
  prediction_agent : Option String := none
deriving DecidableEq, Repr, Inhabited

/-- `class TieBreakPolicy(Enum)` with members ABSTAIN, RANDOM, TRUE_RANDOM. -/
inductive TieBreakPolicy where
  | ABSTAIN
  | RANDOM
  | TRUE_RANDOM
deriving DecidableEq, Repr

/-- `TieBreakPolicy(value)` on a string: the `_missing_` hook raises a
`ValueError` (modelled as `Except.error` carrying the offending value) for
anything but the three member values. -/
def TieBreakPolicy.ofString (s : String) : Except String TieBreakPolicy :=
  if s = "abstain" then .ok .ABSTAIN
  else if s = "random" then .ok .RANDOM
  else if s = "true-random" then .ok .TRUE_RANDOM
  else .error s

/-- `_PROBABILITY_INCREASE_ON_TIE_BREAK = 0.0001`. -/
def probabilityIncreaseOnTieBreak : ℚ := 1 / 10000

/-- The absolute tie tolerance `1.e-8` "taken from the abs tolerance of
np.isclose". -/
def tieTolerance : ℚ := 1 / 100000000

/-- `np.abs` on a scalar. -/
def qabs (q : ℚ) : ℚ := if q < 0 then -q else q

/-- Binary maximum on `ℚ`, written out so the kernel evaluates it. -/
def qmax (a b : ℚ) : ℚ := if a < b then b else a

/-- `prob.max()`: the maximum entry of a (nonempty) probability row. -/
def probMax (prob : List ℚ) : ℚ := prob.foldl qmax (prob.headD 0)

/-! ## `MajorityVoter._compute_single_label_probs`

`counts` stacks, for each vocabulary label in order, the per-row count of
matrix entries equal to that label's code (dense coding: `code(labels[j]) = j`,
abstain is `-1` and is counted for no label).  The row of counts is divided by
its sum; a zero sum yields `0/0 = NaN` in every column, and the line
`probabilities[np.isnan(probabilities)] = 1 / len(labels)` then replaces the
whole row by the uniform distribution. -/

/-- Per-label vote counts of one matrix row. -/
def singleLabelCounts (k : Nat) (row : List Int) : List Nat :=
  (List.range k).map (fun (j : Nat) => row.countP (fun v => v == (j : Int)))

/-- One row of `_compute_single_label_probs`. -/
def computeSingleLabelProbsRow (k : Nat) (row : List Int) : List ℚ :=
  let counts := singleLabelCounts k row
  let s := counts.sum
  if s = 0 then (List.range k).map (fun _ => 1 / (k : ℚ))
  else counts.map (fun (c : Nat) => (c : ℚ) / (s : ℚ))

/-- `MajorityVoter._compute_single_label_probs` (k = number of labels). -/
def compute_single_label_probs (k : Nat) (wlMatrix : List (List Int)) :
    List (List ℚ) :=
  wlMatrix.map (computeSingleLabelProbsRow k)

/-! ## Tie detection and `np.argsort` -/

/-- `np.nonzero(np.abs(prob.max() - prob) < 1.0e-8)[0]`: the ascending list of
label indices within tolerance of the row maximum (the tie set). -/
def equalProbIdx (prob : List ℚ) : List Nat :=
  (List.range prob.length).filter
    (fun j => qabs (probMax prob - prob.getD j 0) < tieTolerance)

/-- A row is tied iff the highest probability is assigned to more than one
label. -/
def isTied (prob : List ℚ) : Bool := 1 < (equalProbIdx prob).length

/-- The order underlying a stable ascending `np.argsort`: compare values, and
break exact value ties by original position. -/
abbrev argsortRel (prob : List ℚ) (i j : Nat) : Prop :=
  prob.getD i 0 < prob.getD j 0 ∨ (prob.getD i 0 = prob.getD j 0 ∧ i ≤ j)

/-- `np.argsort(prob)` (ascending, stable): the index list `0..k-1` sorted by
the lexicographic (value, position) order. -/
def argsort (prob : List ℚ) : List Nat :=
  List.insertionSort (argsortRel prob) (List.range prob.length)

/-- `np.argsort(prob)[::-1]`. -/
def argsortDesc (prob : List ℚ) : List Nat := (argsort prob).reverse

/-- `[(labels[idx], prob[idx]) for idx in np.argsort(prob)[::-1]]`: the full
(label, probability) list emitted for a non-abstained record. -/
def predForRec (labels : List String) (prob : List ℚ) : List (String × ℚ) :=
  (argsortDesc prob).map (fun idx => (labels.getD idx "", prob.getD idx 0))

/-! ## `MajorityVoter._make_single_label_records` -/

/-- `random_idx = int(hashlib.sha1(f"{i}".encode()).hexdigest(), 16) % m`
where `m` is the tie-set size. -/
def randomIdx (i m : Nat) : Nat := rowIndexHash i % m

/-- The loop body of the RANDOM tie break in `_make_single_label_records`:
`for idx in equal_prob_idx: if idx == random_idx: prob[idx] += delta else:
prob[idx] -= delta / (len(equal_prob_idx) - 1)`.  Note the comparison is
`idx == random_idx`, with `idx` ranging over the tie-set members (label
indices) and `random_idx` being a position in `0 .. m-1`. -/
def adjustRow (prob : List ℚ) (eqIdx : List Nat) (ridx : Nat) : List ℚ :=
  (List.zip (List.range prob.length) prob).map (fun p =>
    if p.1 ∈ eqIdx then
      if p.1 = ridx then p.2 + probabilityIncreaseOnTieBreak
      else p.2 - probabilityIncreaseOnTieBreak / ((eqIdx.length : ℚ) - 1)
    else p.2)

/-- What one iteration of the `_make_single_label_records` loop does with a
row: skip it, emit a prediction (possibly `None`), or raise. -/
inductive RowOutcome where
  | skipped
  | emitted (pred : Option (List (String × ℚ)))
  | failed
deriving DecidableEq, Repr

/-- One iteration of the `_make_single_label_records` loop, for row index `i`
with probability row `prob`. -/
def singleRowOutcome (labels : List String) (includeAbstentions : Bool)
    (policy : TieBreakPolicy) (i : Nat) (prob : List ℚ) : RowOutcome :=
  let eqIdx := equalProbIdx prob
  let tie := 1 < eqIdx.length
  if includeAbstentions = false ∧ tie ∧ policy = .ABSTAIN then .skipped
  else if ¬tie then .emitted (some (predForRec labels prob))
  else match policy with
    | .ABSTAIN => .emitted none
    | .RANDOM =>
        .emitted (some (predForRec labels
          (adjustRow prob eqIdx (randomIdx i eqIdx.length))))
    | .TRUE_RANDOM => .failed

/-- `zip(range(len(records)), probabilities, records)` starting at index
`i0`. -/
def enumZip (i0 : Nat) : List (List ℚ) → List TextClassificationRecord →
    List (Nat × List ℚ × TextClassificationRecord)
  | p :: ps, r :: rs => (i0, p, r) :: enumZip (i0 + 1) ps rs
  | _, _ => []

/-- The emitted copy of a record: `rec.copy(deep=True)` with `prediction` and
`prediction_agent` assigned. -/
def emitRecord (agent : String) (rec : TextClassificationRecord)
    (pred : Option (List (String × ℚ))) : TextClassificationRecord :=
  { rec with prediction := pred, prediction_agent := some agent }

/-- The `_make_single_label_records` loop over the enumerated rows.  A raised
`NotImplementedError` aborts the whole call (`Except.error`), so nothing is
emitted. -/
def processRows (labels : List String) (includeAbstentions : Bool)
    (agent : String) (policy : TieBreakPolicy) :
    List (Nat × List ℚ × TextClassificationRecord) →
    Except String (List TextClassificationRecord)
  | [] => .ok []
  | (i, prob, rec) :: rest =>
    match singleRowOutcome labels includeAbstentions policy i prob with
    | .failed => .error "The tie break policy is not implemented for MajorityVoter!"
    | .skipped => processRows labels includeAbstentions agent policy rest
    | .emitted pred =>
        (processRows labels includeAbstentions agent policy rest).map
          (fun out => emitRecord agent rec pred :: out)

/-- `MajorityVoter._make_single_label_records`. -/
def make_single_label_records (labels : List String)
    (probabilities : List (List ℚ)) (records : List TextClassificationRecord)
    (includeAbstentions : Bool) (agent : String) (policy : TieBreakPolicy) :
    Except String (List TextClassificationRecord) :=
  processRows labels includeAbstentions agent policy
    (enumZip 0 probabilities records)

/-- `MajorityVoter.predict` (single-label branch): probabilities are computed
from the weak label matrix and handed to `_make_single_label_records`. -/
def predict (labels : List String) (wlMatrix : List (List Int))
    (records : List TextClassificationRecord) (includeAbstentions : Bool)
    (agent : String) (policy : TieBreakPolicy) :
    Except String (List TextClassificationRecord) :=
  make_single_label_records labels
    (compute_single_label_probs labels.length wlMatrix)
    records includeAbstentions agent policy

/-! ## `MajorityVoter._compute_multi_label_probs` and
`_make_multi_label_records`

Multi-label probabilities are `0/1` floats, with a full row of `NaN` marking
total abstention; `NaN` is modelled as `Option.none`. -/

/-- One row of `_compute_multi_label_probs` for a record whose votes are
`row[rule][label] ∈ {-1,0,1}`: `counts = np.where(wl == -1, 0, wl).sum(rules)`,
entries `1.0` where `counts > 0`, else `0.0`; the whole row becomes `NaN` iff
the raw sum over all rules and labels is `-1 * k * n_rules`. -/
def multiLabelProbsRow (k : Nat) (row : List (List Int)) : List (Option ℚ) :=
  let counts := (List.range k).map (fun j =>
    (row.map (fun rule => if rule.getD j 0 = -1 then 0 else rule.getD j 0)).sum)
  let allRulesAbstained :=
    (row.map (fun rule => rule.sum)).sum = -((k : Int) * (row.length : Int))
  if allRulesAbstained then (List.range k).map (fun _ => (none : Option ℚ))
  else counts.map (fun c => if 0 < c then some 1 else some 0)

/-- `MajorityVoter._compute_multi_label_probs`. -/
def compute_multi_label_probs (k : Nat) (wlMatrix : List (List (List Int))) :
    List (List (Option ℚ)) :=
  wlMatrix.map (multiLabelProbsRow k)

/-- `MajorityVoter._make_multi_label_records`.  A row produced by
`_compute_multi_label_probs` is either entirely `NaN` or `NaN`-free, so in the
emitting branch reading entries with `Option.getD 0` is exact. -/
def make_multi_label_records (labels : List String)
    (probabilities : List (List (Option ℚ)))
    (records : List TextClassificationRecord) (includeAbstentions : Bool)
    (agent : String) : List TextClassificationRecord :=
  (probabilities.zip records).filterMap (fun pr =>
    let allAbstained := pr.1.all (fun x => x = none)
    if includeAbstentions = false ∧ allAbstained = true then none
    else some (emitRecord agent pr.2
      (if allAbstained then none
       else some (predForRec labels (pr.1.map (fun x => x.getD 0))))))

/-! ## `MajorityVoter._score_single_label` and `MajorityVoter.score`

`is_max` marks entries within tolerance of the row maximum, so
`np.argmax(is_max, axis=1)` is the first tie-set member and the tie set itself
is `equalProbIdx`.  The annotation array passes through
`labels.index(int2label[code])`, which is the identity for the dense coding
(§3), so annotations stay the list of ground-truth label indices. -/

/-- `np.argmax(is_max)` for one row: the first index within tolerance of the
maximum. -/
def firstMaxIdx (prob : List ℚ) : Nat := (equalProbIdx prob).headD 0

/-- The prediction array after the RANDOM tie resolution loop of
`_score_single_label`: tied rows get `equal_prob_idx[random_idx]`, untied rows
keep `np.argmax(is_max)`. -/
def scorePredictionsRandom (probs : List (List ℚ)) : List Nat :=
  (List.range probs.length).map (fun i =>
    let p := probs.getD i []
    let eqIdx := equalProbIdx p
    if 1 < eqIdx.length then eqIdx.getD (randomIdx i eqIdx.length) 0
    else firstMaxIdx p)

/-- `MajorityVoter._score_single_label`: returns the aligned (annotation,
prediction) index arrays, or raises for an unimplemented policy (only reached
when at least one row is tied). -/
def score_single_label (probs : List (List ℚ)) (ann : List Nat)
    (policy : TieBreakPolicy) : Except String (List Nat × List Nat) :=
  if probs.any isTied = false then .ok (ann, probs.map firstMaxIdx)
  else match policy with
    | .ABSTAIN =>
        .ok (((ann.zip probs).filter
                (fun ap => isTied ap.2 = false)).map (fun ap => ap.1),
             (((probs.map firstMaxIdx).zip probs).filter
                (fun pp => isTied pp.2 = false)).map (fun pp => pp.1))
    | .RANDOM => .ok (ann, scorePredictionsRandom probs)
    | .TRUE_RANDOM =>
        .error "The tie break policy is not implemented for MajorityVoter!"

/-- The arguments `MajorityVoter.score` hands to sklearn's
`classification_report`, once they survive that function's own argument
validation.  Line 375 of the source reads
`target_names = (self._weak_labels.labels[: annotation.max() + 1],)` —
the trailing comma makes it a **1-tuple wrapping the prefix list**, so
`target_names` is typed here as a list of name-lists, not a list of names. -/
structure Report where
  y_true : List Nat
  y_pred : List Nat
  target_names : List (List String)
deriving DecidableEq, Repr

/-- The ways `MajorityVoter.score` can fail.  `missingAnnotation` mirrors the
`MissingAnnotationError` class declared in the source (and promised by the
docstring of `score`); `valueError` is the `ValueError` numpy raises when the
annotation array is empty (zero-size reduction in `annotation.max()` /
the `reshape` in `_compute_single_label_probs`); `targetNamesMismatch` is the
`ValueError` sklearn's `classification_report` raises when the length of
`target_names` differs from the number of classes inferred from the data;
`notImplemented` is the `NotImplementedError` propagated from
`_score_single_label`. -/
inductive ScoreError where
  | missingAnnotation
  | valueError
  | targetNamesMismatch
  | notImplemented
deriving DecidableEq, Repr

/-- sklearn's `unique_labels(y_true, y_pred)`: the distinct class codes
occurring in the data.  Only its length is consulted below, so the element
order of `dedup` is irrelevant. -/
def uniqueLabels (y_true y_pred : List Nat) : List Nat :=
  (y_true ++ y_pred).dedup

/-- The argument validation of sklearn's `classification_report` when called
without `labels` (as in the source): the classes are inferred from the data,
and if `len(target_names)` differs from the number of inferred classes it
raises `ValueError: Number of classes ... does not match size of
target_names`.  Report computation past this validation (metric formatting)
is out of scope (§1 of the spec); the validated arguments are returned. -/
def classification_report (y_true y_pred : List Nat)
    (target_names : List (List String)) : Except ScoreError Report :=
  if (uniqueLabels y_true y_pred).length = target_names.length
  then .ok ⟨y_true, y_pred, target_names⟩
  else .error .targetNamesMismatch

/-- `MajorityVoter.score` (single-label branch): compute probabilities over
the annotated rows, resolve ties via `_score_single_label`, build
`target_names = (labels[: annotation.max() + 1],)` — the 1-tuple of line 375,
modelled as the singleton list `[labels.take (m + 1)]` — and call
`classification_report`. -/
def score (labels : List String) (wlMatrix : List (List Int))
    (ann : List Nat) (policy : TieBreakPolicy) :
    Except ScoreError Report :=
  let probs := compute_single_label_probs labels.length wlMatrix
  match score_single_label probs ann policy with
  | .error _ => .error .notImplemented
  | .ok ap =>
    match ap.1.max? with
    | none => .error .valueError
    | some m => classification_report ap.1 ap.2 [labels.take (m + 1)]

/-! ## Helper lemmas -/

theorem getD_map_lt {α β : Type} (f : α → β) (l : List α) (i : Nat) (d : β)
    (d' : α) (h : i < l.length) : (l.map f).getD i d = f (l.getD i d') := by
  rw [List.getD_eq_getElem?_getD, List.getElem?_map,
    List.getD_eq_getElem?_getD, List.getElem?_eq_getElem h]
  simp

theorem map_getD_range {α : Type} (l : List α) (d : α) :
    (List.range l.length).map (fun i => l.getD i d) = l := by
  apply List.ext_getElem
  · simp
  · intro i h1 h2
    simp [List.getD_eq_getElem?_getD, List.getElem?_eq_getElem h2]

theorem sum_map_indicator {α : Type} (l : List α) (p : α → Bool) :
    (l.map (fun a => if p a then (1 : Nat) else 0)).sum = l.countP p := by
  induction l with
  | nil => rfl
  | cons a l ih => simp only [List.map_cons, List.sum_cons, List.countP_cons, ih]; omega

theorem sum_map_add {α : Type} (l : List α) (f g : α → Nat) :
    (l.map (fun a => f a + g a)).sum = (l.map f).sum + (l.map g).sum := by
  induction l with
  | nil => rfl
  | cons a l ih => simp only [List.map_cons, List.sum_cons, ih]; omega

theorem countP_range_eq (v : Int) (k : Nat) :
    (List.range k).countP (fun (j : Nat) => v == (j : Int)) =
      if 0 ≤ v ∧ v < (k : Int) then 1 else 0 := by
  induction k with
  | zero => simp only [List.range_zero, List.countP_nil]; split_ifs with h <;> omega
  | succ k ih =>
      rw [List.range_succ, List.countP_append, ih]
      simp only [List.countP_cons, List.countP_nil, beq_iff_eq]
      by_cases hv : v = (k : Int)
      · subst hv; simp only [if_pos rfl]; push_cast; split_ifs <;> omega
      · simp only [if_neg hv]; push_cast; split_ifs <;> omega

theorem singleLabelCounts_sum (k : Nat) (row : List Int) :
    (singleLabelCounts k row).sum =
      row.countP (fun v => decide (0 ≤ v ∧ v < (k : Int))) := by
  induction row with
  | nil =>
      simp only [singleLabelCounts, List.countP_nil]
      simp
  | cons v r ih =>
      have hstep : singleLabelCounts k (v :: r) =
          (List.range k).map (fun (j : Nat) =>
            r.countP (fun w => w == (j : Int)) +
              (if v == (j : Int) then 1 else 0)) := by
        simp only [singleLabelCounts, List.countP_cons]
      rw [hstep, sum_map_add]
      have hind : ((List.range k).map
          (fun (j : Nat) => if v == (j : Int) then (1 : Nat) else 0)).sum =
          (List.range k).countP (fun (j : Nat) => v == (j : Int)) :=
        sum_map_indicator (List.range k) (fun (j : Nat) => v == (j : Int))
      rw [hind, countP_range_eq, List.countP_cons]
      have : (singleLabelCounts k r).sum =
          r.countP (fun v => decide (0 ≤ v ∧ v < (k : Int))) := ih
      simp only [singleLabelCounts] at this
      rw [this]
      simp only [decide_eq_true_eq]

theorem sum_map_div (l : List Nat) (d : ℚ) :
    (l.map (fun (c : Nat) => (c : ℚ) / d)).sum = (l.sum : ℚ) / d := by
  induction l with
  | nil => simp
  | cons c l ih =>
      simp only [List.map_cons, List.sum_cons, ih]
      push_cast
      rw [add_div]

theorem sum_ge_neg_length (l : List Int) (h : ∀ v ∈ l, -1 ≤ v) :
    -(l.length : Int) ≤ l.sum := by
  induction l with
  | nil => simp
  | cons v r ih =>
      have hv : -1 ≤ v := h v (by simp)
      have hr : -(r.length : Int) ≤ r.sum :=
        ih (fun x hx => h x (by simp [hx]))
      simp only [List.sum_cons, List.length_cons]
      push_cast
      omega

theorem sum_eq_neg_length_iff (l : List Int) (h : ∀ v ∈ l, -1 ≤ v) :
    l.sum = -(l.length : Int) ↔ ∀ v ∈ l, v = -1 := by
  induction l with
  | nil => simp
  | cons v r ih =>
      have hv : -1 ≤ v := h v (by simp)
      have hr : ∀ x ∈ r, -1 ≤ x := fun x hx => h x (by simp [hx])
      have hge : -(r.length : Int) ≤ r.sum := sum_ge_neg_length r hr
      have hiff := ih hr
      simp only [List.sum_cons, List.length_cons, List.mem_cons]
      constructor
      · intro heq
        have h1 : v = -1 ∧ r.sum = -(r.length : Int) := by push_cast at heq; omega
        intro x hx
        rcases hx with hx | hx
        · rw [hx]; exact h1.1
        · exact (hiff.mp h1.2) x hx
      · intro hall
        have h1 : v = -1 := hall v (Or.inl rfl)
        have h2 : r.sum = -(r.length : Int) :=
          hiff.mpr (fun x hx => hall x (Or.inr hx))
        rw [h1, h2]
        push_cast
        ring

theorem rules_sum_ge (k : Nat) (row : List (List Int))
    (hshape : ∀ r ∈ row, r.length = k)
    (hval : ∀ r ∈ row, ∀ v ∈ r, -1 ≤ v) :
    -((k : Int) * row.length) ≤ (row.map (fun rule => rule.sum)).sum := by
  induction row with
  | nil => simp
  | cons rule rest ih =>
      have h1 : -((rule.length : Int)) ≤ rule.sum :=
        sum_ge_neg_length rule (hval rule (by simp))
      have h2 : -((k : Int) * rest.length) ≤
          (rest.map (fun rule => rule.sum)).sum :=
        ih (fun r hr => hshape r (by simp [hr])) (fun r hr => hval r (by simp [hr]))
      have h3 : rule.length = k := hshape rule (by simp)
      simp only [List.map_cons, List.sum_cons, List.length_cons]
      rw [h3] at h1
      push_cast
      nlinarith

theorem rules_sum_eq_iff (k : Nat) (row : List (List Int))
    (hshape : ∀ r ∈ row, r.length = k)
    (hval : ∀ r ∈ row, ∀ v ∈ r, -1 ≤ v) :
    (row.map (fun rule => rule.sum)).sum = -((k : Int) * row.length) ↔
      ∀ r ∈ row, ∀ v ∈ r, v = -1 := by
  induction row with
  | nil => simp
  | cons rule rest ih =>
      have h3 : rule.length = k := hshape rule (by simp)
      have h1 : -((k : Int)) ≤ rule.sum := by
        have := sum_ge_neg_length rule (hval rule (by simp))
        rwa [h3] at this
      have h2 : -((k : Int) * rest.length) ≤
          (rest.map (fun rule => rule.sum)).sum :=
        rules_sum_ge k rest (fun r hr => hshape r (by simp [hr]))
          (fun r hr => hval r (by simp [hr]))
      have hiff1 : rule.sum = -((k : Int)) ↔ ∀ v ∈ rule, v = -1 := by
        have := sum_eq_neg_length_iff rule (hval rule (by simp))
        rwa [h3] at this
      have hiff2 := ih (fun r hr => hshape r (by simp [hr]))
        (fun r hr => hval r (by simp [hr]))
      simp only [List.map_cons, List.sum_cons, List.length_cons, List.mem_cons]
      constructor
      · intro heq
        have hsplit : rule.sum = -((k : Int)) ∧
            (rest.map (fun rule => rule.sum)).sum = -((k : Int) * rest.length) := by
          push_cast at heq
          constructor <;> nlinarith
        intro r hr
        rcases hr with hr | hr
        · rw [hr]; exact hiff1.mp hsplit.1
        · exact (hiff2.mp hsplit.2) r hr
      · intro hall
        have e1 : rule.sum = -((k : Int)) := hiff1.mpr (hall rule (Or.inl rfl))
        have e2 : (rest.map (fun rule => rule.sum)).sum = -((k : Int) * rest.length) :=
          hiff2.mpr (fun r hr => hall r (Or.inr hr))
        rw [e1, e2]
        push_cast
        ring

theorem sum_pos_iff_exists (l : List Int) (h : ∀ v ∈ l, 0 ≤ v) :
    0 < l.sum ↔ ∃ v ∈ l, 0 < v := by
  induction l with
  | nil => simp
  | cons v r ih =>
      have hv : 0 ≤ v := h v (by simp)
      have hr : ∀ x ∈ r, 0 ≤ x := fun x hx => h x (by simp [hx])
      have hsum : 0 ≤ r.sum := List.sum_nonneg hr
      have hiff := ih hr
      simp only [List.sum_cons, List.mem_cons]
      constructor
      · intro hpos
        by_cases hv0 : 0 < v
        · exact ⟨v, Or.inl rfl, hv0⟩
        · have : 0 < r.sum := by omega
          obtain ⟨x, hx, hxpos⟩ := hiff.mp this
          exact ⟨x, Or.inr hx, hxpos⟩
      · rintro ⟨x, hx | hx, hxpos⟩
        · subst hx; omega
        · have : 0 < r.sum := hiff.mpr ⟨x, hx, hxpos⟩
          omega

/-! ## Claim theorems -/

set_option maxRecDepth 1000000

/- The Batteries `Rat` operations are `@[irreducible]`, which blocks the
`decide` evaluator; restore default reducibility locally so concrete runs of
the embedded code evaluate.  This has no logical content. -/
set_option allowUnsafeReducibility true

attribute [local semireducible] Rat.mul Rat.inv Rat.add Rat.sub Rat.ofScientific

deriving instance DecidableEq for Except

/-- **C1** (code bug).  Single-label predict, `tie_break_policy = random`,
vocabulary `[A, B, C]`, one record whose two rules vote `B` and `C`: the
probability row is `[0, 1/2, 1/2]` and the tie set is `{1, 2}`.  The sha1 hash
of the row index `0` reduced modulo the tie-set size is `0`, so the claimed
winner is the tie-set member `equal_prob_idx[0] = 1` (label "B") and its
emitted probability should be `1/2 + 1e-4`, strictly above "C".  The code
instead compares each tie-set member against the positional value `0`, which
is not a member of the tie set, so no entry is increased: both tied entries
drop to `4999/10000`, and the emitted row puts "C" first, tied with "B". -/
theorem C1_tie_break_winner_not_nudged :
    predict ["A", "B", "C"] [[1, 2]] [{ id := 0 }] false "MajorityVoter"
        .RANDOM =
      .ok [{ id := 0,
             prediction := some
               [("C", 4999/10000), ("B", 4999/10000), ("A", 0)],
             prediction_agent := some "MajorityVoter" }] ∧
    equalProbIdx [0, 1/2, 1/2] = [1, 2] ∧
    randomIdx 0 2 = 0 ∧
    (4999/10000 : ℚ) ≠ 1/2 + probabilityIncreaseOnTieBreak := by
  refine ⟨by decide, by decide, by decide, by decide⟩

/-- **C2** (code bug).  Same input as C1: the predict path emits "C" (label
index 2) as the top-1 label of the tied record, while `_score_single_label`
under the same RANDOM policy writes `equal_prob_idx[sha1("0") % 2] = 1`
(label "B") into the prediction array — the two paths disagree on the tie
winner. -/
theorem C2_predict_score_tie_winner_disagree :
    (predict ["A", "B", "C"] [[1, 2]] [{ id := 0 }] false "MajorityVoter"
        .RANDOM).map
      (fun out => (((out.headD default).prediction.getD []).headD ("", 0)).1) =
      .ok "C" ∧
    score_single_label (compute_single_label_probs 3 [[1, 2]]) [0] .RANDOM =
      .ok ([0], [1]) ∧
    ["A", "B", "C"].getD 1 "" = "B" ∧
    "C" ≠ "B" := by
  refine ⟨by decide, by decide, by decide, by decide⟩

/-- **C3** (code bug).  `MajorityVoter.score` with an empty annotation array
(zero annotated records) fails — but with the `ValueError` numpy raises on a
zero-size reduction, not with the `MissingAnnotationError` that the claim,
the spec and the method's own docstring promise: unlike `Snorkel.score`,
`MajorityVoter.score` contains no `annotation().size == 0` check. -/
theorem C3_empty_annotation_wrong_error :
    (∀ policy, score ["A", "B"] [] [] policy = .error .valueError) ∧
    ScoreError.valueError ≠ ScoreError.missingAnnotation := by
  constructor
  · intro policy
    cases policy <;> decide
  · decide

/-- **C4** counterexample.  Labels `[A, B, C]`, annotations `{A, C}` with
untied predictions: line 375 passes `target_names = ([A, B, C],)` — a 1-tuple
wrapping the prefix — while two distinct classes appear in the data, so
sklearn's validation raises `ValueError` and the call never reports any set
of per-label names at all; the claimed equality with the observed-label set
fails. -/
theorem C4_observed_set_never_passed :
    score ["A", "B", "C"] [[0], [2]] [0, 2] .ABSTAIN =
      .error .targetNamesMismatch ∧
    (∀ r, score ["A", "B", "C"] [[0], [2]] [0, 2] .ABSTAIN ≠ .ok r) ∧
    uniqueLabels [0, 2] [0, 2] = [0, 2] ∧
    ([["A", "B", "C"]] : List (List String)).length = 1 := by
  refine ⟨by decide, ?_, by decide, by decide⟩
  intro r h
  exact Except.noConfusion
    ((show score ["A", "B", "C"] [[0], [2]] [0, 2] .ABSTAIN =
        .error .targetNamesMismatch by decide).symm.trans h)

/-- **C4** amended.  Single-label `score` computes the vocabulary prefix
`labels[: max(annotation) + 1]` but passes it wrapped in a 1-tuple (the
trailing comma at line 375), so `classification_report` receives exactly one
pseudo-name: the call raises the target-names `ValueError` whenever the
tie-filtered annotation and prediction arrays contain a number of distinct
classes other than one, and otherwise the single name handed on is the whole
prefix list — which contains every observed label but is never the set of
observed label names. -/
theorem C4_target_names_single_tuple (labels : List String)
    (wl : List (List Int)) (ann : List Nat) (policy : TieBreakPolicy)
    (a p : List Nat) (m : Nat)
    (hs : score_single_label (compute_single_label_probs labels.length wl)
      ann policy = .ok (a, p))
    (hm : a.max? = some m) :
    ((uniqueLabels a p).length ≠ 1 →
      score labels wl ann policy = .error .targetNamesMismatch) ∧
    ((uniqueLabels a p).length = 1 →
      score labels wl ann policy = .ok ⟨a, p, [labels.take (m + 1)]⟩ ∧
      ([labels.take (m + 1)] : List (List String)).length = 1) ∧
    (∀ c ∈ a, c < labels.length → labels.getD c "" ∈ labels.take (m + 1)) := by
  have hsc : score labels wl ann policy =
      classification_report a p [labels.take (m + 1)] := by
    unfold score
    simp only
    rw [hs]
    simp only
    rw [hm]
  refine ⟨?_, ?_, ?_⟩
  · intro hne
    rw [hsc, classification_report, if_neg (by simpa using hne)]
  · intro hone
    constructor
    · rw [hsc, classification_report, if_pos (by simpa using hone)]
    · rfl
  · intro c hc hlen
    have hcm : c ≤ m := (List.max?_eq_some_iff'.mp hm).2 c hc
    have h1 : (labels.take (m + 1))[c]? = labels[c]? :=
      List.getElem?_take_of_lt (by omega)
    have h2 : labels[c]? = some (labels.getD c "") := by
      rw [List.getElem?_eq_getElem hlen]
      rw [List.getD_eq_getElem?_getD, List.getElem?_eq_getElem hlen]
      rfl
    exact List.getElem?_mem (h1.trans h2)

/-- Witness for C4: a two-class input crashes on the target-names validation;
a one-class input survives it and hands on the wrapped prefix as the sole
pseudo-name, which contains the observed label. -/
theorem C4_target_names_single_tuple_witness :
    score ["A", "B", "C"] [[0], [2], [2]] [0, 2, 2] .ABSTAIN =
      .error .targetNamesMismatch ∧
    score ["A", "B"] [[1]] [1] .ABSTAIN = .ok ⟨[1], [1], [["A", "B"]]⟩ ∧
    ∀ c ∈ ([1] : List Nat), c < (["A", "B"] : List String).length →
      ["A", "B"].getD c "" ∈ ["A", "B"].take (1 + 1) := by
  have h1 := C4_target_names_single_tuple ["A", "B", "C"] [[0], [2], [2]]
    [0, 2, 2] .ABSTAIN [0, 2, 2] [0, 2, 2] 2 (by decide) (by decide)
  have h2 := C4_target_names_single_tuple ["A", "B"] [[1]] [1] .ABSTAIN
    [1] [1] 1 (by decide) (by decide)
  exact ⟨h1.1 (by decide), (h2.2.1 (by decide)).1, h2.2.2⟩

/-! ## Loop characterization lemmas -/

/-- The prediction the RANDOM policy emits for row `i`: the plain sorted row
when untied, the adjusted row otherwise. -/
def randomRowPred (labels : List String) (i : Nat) (prob : List ℚ) :
    List (String × ℚ) :=
  if isTied prob then
    predForRec labels
      (adjustRow prob (equalProbIdx prob) (randomIdx i (equalProbIdx prob).length))
  else predForRec labels prob

/-- What the loop contributes to the output for one row (when it does not
raise): `none` when the row is skipped. -/
def rowEmitOpt (labels : List String) (incl : Bool) (agent : String)
    (policy : TieBreakPolicy) (t : Nat × List ℚ × TextClassificationRecord) :
    Option TextClassificationRecord :=
  match singleRowOutcome labels incl policy t.1 t.2.1 with
  | .skipped => none
  | .emitted pred => some (emitRecord agent t.2.2 pred)
  | .failed => none

theorem singleRowOutcome_random (labels : List String) (incl : Bool) (i : Nat)
    (prob : List ℚ) :
    singleRowOutcome labels incl .RANDOM i prob =
      .emitted (some (randomRowPred labels i prob)) := by
  unfold singleRowOutcome randomRowPred isTied
  by_cases htie : 1 < (equalProbIdx prob).length <;> simp [htie]

theorem singleRowOutcome_skipped_iff (labels : List String) (incl : Bool)
    (policy : TieBreakPolicy) (i : Nat) (prob : List ℚ) :
    singleRowOutcome labels incl policy i prob = .skipped ↔
      (incl = false ∧ isTied prob = true ∧ policy = .ABSTAIN) := by
  unfold singleRowOutcome isTied
  by_cases hskip : incl = false ∧ 1 < (equalProbIdx prob).length ∧
      policy = .ABSTAIN
  · simp [hskip, hskip.1, hskip.2.1, hskip.2.2]
  · rw [if_neg hskip]
    by_cases htie : 1 < (equalProbIdx prob).length
    · simp only [htie, not_true_eq_false, if_false]
      cases policy <;> simp_all
    · simp [htie]

theorem singleRowOutcome_trueRandom_failed_iff (labels : List String)
    (incl : Bool) (i : Nat) (prob : List ℚ) :
    singleRowOutcome labels incl .TRUE_RANDOM i prob = .failed ↔
      isTied prob = true := by
  unfold singleRowOutcome isTied
  by_cases htie : 1 < (equalProbIdx prob).length <;> simp [htie]

theorem processRows_error_iff (labels : List String) (incl : Bool)
    (agent : String) (policy : TieBreakPolicy)
    (L : List (Nat × List ℚ × TextClassificationRecord)) :
    (∃ e, processRows labels incl agent policy L = .error e) ↔
      ∃ t ∈ L, singleRowOutcome labels incl policy t.1 t.2.1 = .failed := by
  induction L with
  | nil => simp [processRows]
  | cons t rest ih =>
      obtain ⟨i, prob, rec⟩ := t
      simp only [processRows, List.mem_cons]
      cases hout : singleRowOutcome labels incl policy i prob with
      | failed => simp [hout]
      | skipped =>
          simp only [ih]
          constructor
          · rintro ⟨t, ht, hf⟩; exact ⟨t, Or.inr ht, hf⟩
          · rintro ⟨t, ht | ht, hf⟩
            · rw [ht] at hf; simp [hout] at hf
            · exact ⟨t, ht, hf⟩
      | emitted pred =>
          cases hrest : processRows labels incl agent policy rest with
          | error e =>
              simp only [hrest, Except.map]
              constructor
              · intro _
                obtain ⟨t, ht, hf⟩ := ih.mp ⟨e, hrest⟩
                exact ⟨t, Or.inr ht, hf⟩
              · intro _
                exact ⟨e, rfl⟩
          | ok o =>
              simp only [hrest, Except.map]
              constructor
              · rintro ⟨e, he⟩
                exact absurd he (by simp)
              · rintro ⟨t, ht | ht, hf⟩
                · rw [ht] at hf
                  simp [hout] at hf
                · obtain ⟨e, he⟩ := ih.mpr ⟨t, ht, hf⟩
                  rw [hrest] at he
                  exact absurd he (by simp)

theorem processRows_random (labels : List String) (incl : Bool)
    (agent : String) (L : List (Nat × List ℚ × TextClassificationRecord)) :
    processRows labels incl agent .RANDOM L =
      .ok (L.map (fun t =>
        emitRecord agent t.2.2 (some (randomRowPred labels t.1 t.2.1)))) := by
  induction L with
  | nil => rfl
  | cons t rest ih =>
      obtain ⟨i, prob, rec⟩ := t
      simp [processRows, singleRowOutcome_random, ih, Except.map]

theorem processRows_ok_filterMap (labels : List String) (incl : Bool)
    (agent : String) (policy : TieBreakPolicy)
    (L : List (Nat × List ℚ × TextClassificationRecord))
    (o : List TextClassificationRecord)
    (h : processRows labels incl agent policy L = .ok o) :
    o = L.filterMap (rowEmitOpt labels incl agent policy) := by
  induction L generalizing o with
  | nil =>
      simp only [processRows, Except.ok.injEq] at h
      simp [h.symm]
  | cons t rest ih =>
      obtain ⟨i, prob, rec⟩ := t
      simp only [processRows] at h
      cases hout : singleRowOutcome labels incl policy i prob with
      | failed =>
          rw [hout] at h
          simp only at h
          exact absurd h (by simp)
      | skipped =>
          rw [hout] at h
          simp only at h
          simp only [List.filterMap_cons, rowEmitOpt, hout]
          exact ih o h
      | emitted pred =>
          rw [hout] at h
          simp only at h
          cases hrest : processRows labels incl agent policy rest with
          | error e =>
              rw [hrest] at h
              exact absurd h (by simp [Except.map])
          | ok o' =>
              rw [hrest] at h
              simp only [Except.map, Except.ok.injEq] at h
              simp only [List.filterMap_cons, rowEmitOpt, hout]
              rw [← h, ih o' hrest]

theorem enumZip_length (i0 : Nat) (ps : List (List ℚ))
    (rs : List TextClassificationRecord) :
    (enumZip i0 ps rs).length = min ps.length rs.length := by
  induction ps generalizing i0 rs with
  | nil => cases rs <;> simp [enumZip]
  | cons p ps ih =>
      cases rs with
      | nil => simp [enumZip]
      | cons r rs =>
          simp only [enumZip, List.length_cons, ih]
          omega

theorem enumZip_getD (i0 j : Nat) (ps : List (List ℚ))
    (rs : List TextClassificationRecord)
    (h1 : j < ps.length) (h2 : j < rs.length) :
    (enumZip i0 ps rs).getD j (0, [], default) =
      (i0 + j, ps.getD j [], rs.getD j default) := by
  induction j generalizing i0 ps rs with
  | zero =>
      cases ps with
      | nil => simp at h1
      | cons p ps =>
          cases rs with
          | nil => simp at h2
          | cons r rs => simp [enumZip]
  | succ j ih =>
      cases ps with
      | nil => simp at h1
      | cons p ps =>
          cases rs with
          | nil => simp at h2
          | cons r rs =>
              simp only [enumZip, List.getD_cons_succ]
              rw [ih (i0 + 1) ps rs (by simpa using h1) (by simpa using h2)]
              congr 1
              omega

theorem enumZip_mem_iff (i0 : Nat) (ps : List (List ℚ))
    (rs : List TextClassificationRecord)
    (t : Nat × List ℚ × TextClassificationRecord) :
    t ∈ enumZip i0 ps rs ↔ ∃ j, j < ps.length ∧ j < rs.length ∧
      t = (i0 + j, ps.getD j [], rs.getD j default) := by
  induction ps generalizing i0 rs with
  | nil =>
      cases rs <;> simp [enumZip]
  | cons p ps ih =>
      cases rs with
      | nil => simp [enumZip]
      | cons r rs =>
          simp only [enumZip, List.mem_cons, ih]
          constructor
          · rintro (rfl | ⟨j, hj1, hj2, rfl⟩)
            · exact ⟨0, by simp, by simp, by simp⟩
            · refine ⟨j + 1, by simpa using hj1, by simpa using hj2, ?_⟩
              simp only [List.getD_cons_succ]
              congr 1
              omega
          · rintro ⟨j, hj1, hj2, rfl⟩
            cases j with
            | zero => left; simp
            | succ j =>
                right
                refine ⟨j, by simpa using hj1, by simpa using hj2, ?_⟩
                simp only [List.getD_cons_succ]
                congr 1
                omega

/-- **C5** counterexample.  With `tie_break_policy = true-random` and a matrix
without any tie (one record, both rules voting `A`), both the predict path and
the score path run to completion and emit a record / a prediction array — the
`NotImplementedError` is only raised inside the tie-resolution branch, so the
claim's "fails regardless of the matrix contents" is false. -/
theorem C5_true_random_no_tie_succeeds :
    predict ["A", "B"] [[0, 0]] [{ id := 0 }] false "MajorityVoter"
        .TRUE_RANDOM =
      .ok [{ id := 0, prediction := some [("A", 1), ("B", 0)],
             prediction_agent := some "MajorityVoter" }] ∧
    score_single_label (compute_single_label_probs 2 [[0, 0]]) [0]
        .TRUE_RANDOM = .ok ([0], [0]) := by
  refine ⟨by decide, by decide⟩

/-- **C5** amended.  An unrecognized policy *string* fails at enum conversion
regardless of the matrix; the reserved `true-random` member passes conversion,
and the single-label predict / tie-resolution paths then raise the
not-implemented error if and only if at least one processed row is tied.
With a tie-free matrix, predict completes and returns its records, and
`_score_single_label` returns the aligned annotation/prediction arrays
without any policy error — whether the surrounding `score` call then returns
a report is governed by the separate `target_names` defect of line 375 (C4),
independent of the tie-break policy. -/
theorem C5_not_implemented_iff_some_tie (labels : List String)
    (recs : List TextClassificationRecord) (incl : Bool) (agent : String)
    (wl : List (List Int)) (ann : List Nat) :
    ((∃ e, predict labels wl recs incl agent .TRUE_RANDOM = .error e) ↔
      ∃ j, j < wl.length ∧ j < recs.length ∧
        isTied ((compute_single_label_probs labels.length wl).getD j []) =
          true) ∧
    ((∃ e, score_single_label (compute_single_label_probs labels.length wl)
        ann .TRUE_RANDOM = .error e) ↔
      (compute_single_label_probs labels.length wl).any isTied = true) ∧
    (∀ s, s ≠ "abstain" → s ≠ "random" → s ≠ "true-random" →
      TieBreakPolicy.ofString s = .error s) ∧
    ((¬∃ j, j < wl.length ∧ j < recs.length ∧
        isTied ((compute_single_label_probs labels.length wl).getD j []) =
          true) →
      ∃ o, predict labels wl recs incl agent .TRUE_RANDOM = .ok o) ∧
    ((compute_single_label_probs labels.length wl).any isTied = false →
      score_single_label (compute_single_label_probs labels.length wl) ann
          .TRUE_RANDOM =
        .ok (ann,
          (compute_single_label_probs labels.length wl).map firstMaxIdx)) := by
  have hpredict : (∃ e, predict labels wl recs incl agent .TRUE_RANDOM =
      .error e) ↔
      ∃ j, j < wl.length ∧ j < recs.length ∧
        isTied ((compute_single_label_probs labels.length wl).getD j []) =
          true := by
    rw [predict, make_single_label_records, processRows_error_iff]
    have hlen : (compute_single_label_probs labels.length wl).length =
        wl.length := by simp [compute_single_label_probs]
    constructor
    · rintro ⟨t, ht, hf⟩
      obtain ⟨j, hj1, hj2, rfl⟩ := (enumZip_mem_iff 0 _ recs t).mp ht
      rw [singleRowOutcome_trueRandom_failed_iff] at hf
      exact ⟨j, by omega, hj2, hf⟩
    · rintro ⟨j, hj1, hj2, htie⟩
      refine ⟨(j, (compute_single_label_probs labels.length wl).getD j [],
        recs.getD j default), ?_, ?_⟩
      · exact (enumZip_mem_iff 0 _ recs _).mpr ⟨j, by omega, hj2, by simp⟩
      · rw [singleRowOutcome_trueRandom_failed_iff]
        exact htie
  refine ⟨hpredict, ?_, ?_, ?_, ?_⟩
  · unfold score_single_label
    cases hany : (compute_single_label_probs labels.length wl).any isTied with
    | false => simp [hany]
    | true => simp [hany]
  · intro s h1 h2 h3
    simp [TieBreakPolicy.ofString, h1, h2, h3]
  · intro hno
    cases h : predict labels wl recs incl agent .TRUE_RANDOM with
    | ok o => exact ⟨o, rfl⟩
    | error e => exact absurd (hpredict.mp ⟨e, h⟩) hno
  · intro hfalse
    unfold score_single_label
    rw [hfalse, if_pos rfl]

/-- Witness for C5: the amended statement evaluated on a concrete tied matrix
and a concrete unrecognized policy string. -/
theorem C5_not_implemented_iff_some_tie_witness :
    ((∃ e, predict ["A", "B"] [[0, 1]] [{ id := 0 }] false "MajorityVoter"
        .TRUE_RANDOM = .error e) ↔
      ∃ j, j < 1 ∧ j < 1 ∧
        isTied ((compute_single_label_probs
          (["A", "B"] : List String).length [[0, 1]]).getD j []) = true) ∧
    TieBreakPolicy.ofString "bogus" = .error "bogus" ∧
    (∃ o, predict ["A", "B"] [[0, 0]] [{ id := 0 }] false "MajorityVoter"
        .TRUE_RANDOM = .ok o) ∧
    score_single_label (compute_single_label_probs
        (["A", "B"] : List String).length [[0, 0]]) [0] .TRUE_RANDOM =
      .ok ([0], (compute_single_label_probs
        (["A", "B"] : List String).length [[0, 0]]).map firstMaxIdx) := by
  have h := C5_not_implemented_iff_some_tie ["A", "B"] [{ id := 0 }] false
    "MajorityVoter" [[0, 1]] []
  have h2 := C5_not_implemented_iff_some_tie ["A", "B"] [{ id := 0 }] false
    "MajorityVoter" [[0, 0]] [0]
  exact ⟨h.1, h.2.2.1 "bogus" (by decide) (by decide) (by decide),
    h2.2.2.2.1 (by decide), h2.2.2.2.2 (by decide)⟩

/-! ## Order properties of `argsort` -/

theorem argsortRel_total (prob : List ℚ) (i j : Nat) :
    argsortRel prob i j ∨ argsortRel prob j i := by
  rcases lt_trichotomy (prob.getD i 0) (prob.getD j 0) with h | h | h
  · exact Or.inl (Or.inl h)
  · rcases Nat.le_total i j with hij | hij
    · exact Or.inl (Or.inr ⟨h, hij⟩)
    · exact Or.inr (Or.inr ⟨h.symm, hij⟩)
  · exact Or.inr (Or.inl h)

theorem argsortRel_trans (prob : List ℚ) (i j l : Nat)
    (hij : argsortRel prob i j) (hjl : argsortRel prob j l) :
    argsortRel prob i l := by
  rcases hij with h1 | ⟨h1, hle1⟩ <;> rcases hjl with h2 | ⟨h2, hle2⟩
  · exact Or.inl (h1.trans h2)
  · exact Or.inl (h2 ▸ h1)
  · exact Or.inl (h1 ▸ h2)
  · exact Or.inr ⟨h1.trans h2, hle1.trans hle2⟩

theorem argsort_perm (prob : List ℚ) :
    List.Perm (argsort prob) (List.range prob.length) :=
  List.perm_insertionSort _ _

theorem argsort_pairwise (prob : List ℚ) :
    List.Pairwise (argsortRel prob) (argsort prob) := by
  haveI : IsTotal Nat (argsortRel prob) := ⟨argsortRel_total prob⟩
  haveI : IsTrans Nat (argsortRel prob) := ⟨argsortRel_trans prob⟩
  exact List.sorted_insertionSort _ _

theorem argsortDesc_perm (prob : List ℚ) :
    List.Perm (argsortDesc prob) (List.range prob.length) :=
  (List.reverse_perm (argsort prob)).trans (argsort_perm prob)

theorem argsortDesc_nodup (prob : List ℚ) : (argsortDesc prob).Nodup :=
  (argsortDesc_perm prob).nodup_iff.mpr (List.nodup_range prob.length)

theorem argsortDesc_pairwise (prob : List ℚ) :
    List.Pairwise (fun i j => prob.getD j 0 ≤ prob.getD i 0 ∧
      (prob.getD i 0 = prob.getD j 0 → j < i)) (argsortDesc prob) := by
  have hrev : List.Pairwise (fun i j => argsortRel prob j i)
      (argsortDesc prob) := by
    rw [argsortDesc, List.pairwise_reverse]
    exact argsort_pairwise prob
  have hne : List.Pairwise (fun i j : Nat => i ≠ j) (argsortDesc prob) :=
    argsortDesc_nodup prob
  refine (hrev.and hne).imp ?_
  rintro i j ⟨hrel, hij⟩
  rcases hrel with h | ⟨heq, hle⟩
  · exact ⟨le_of_lt h, fun he => absurd (he ▸ h) (lt_irrefl _)⟩
  · exact ⟨le_of_eq heq, fun _ => Nat.lt_of_le_of_ne hle (fun h => hij h.symm)⟩

/-- **C6** counterexample.  Multi-label, vocabulary `[X, Y]`, one record where
rule 0 votes only `X` and rule 1 votes only `Y`: both labels get probability
`1.0`, and the emitted prediction lists `Y` *before* `X` — equal-probability
labels appear in reverse vocabulary order (`np.argsort(prob)[::-1]` reverses
the stable ascending order), not in vocabulary order as claimed. -/
theorem C6_tie_order_not_vocab_order :
    make_multi_label_records ["X", "Y"]
        (compute_multi_label_probs 2 [[[1, 0], [0, 1]]])
        [{ id := 0 }] false "MajorityVoter" =
      [{ id := 0, prediction := some [("Y", 1), ("X", 1)],
         prediction_agent := some "MajorityVoter" }] ∧
    ¬ List.Pairwise (fun a b : String × ℚ => b.2 ≤ a.2 ∧
        (a.2 = b.2 →
          ["X", "Y"].indexOf a.1 < ["X", "Y"].indexOf b.1))
      [("Y", 1), ("X", 1)] := by
  constructor
  · decide
  · intro h
    have h1 := (List.pairwise_cons.mp h).1 ("X", 1) (by simp)
    have h2 := h1.2 rfl
    simp [List.indexOf, List.findIdx, List.findIdx.go] at h2

/-- **C6** amended.  Every non-`None` prediction is built by `predForRec`:
one `(label, probability)` pair per vocabulary label (the emitted index list
is a permutation of `0 .. k-1`), sorted by probability descending — but
labels with exactly equal probability appear in *reverse* vocabulary order
(strictly decreasing vocabulary index), not in vocabulary order. -/
theorem C6_pred_sorted_desc_ties_reverse_vocab (labels : List String)
    (prob : List ℚ) :
    predForRec labels prob =
      (argsortDesc prob).map
        (fun idx => (labels.getD idx "", prob.getD idx 0)) ∧
    List.Perm (argsortDesc prob) (List.range prob.length) ∧
    List.Pairwise (fun i j => prob.getD j 0 ≤ prob.getD i 0 ∧
      (prob.getD i 0 = prob.getD j 0 → j < i)) (argsortDesc prob) ∧
    (prob.length = labels.length →
      List.Perm ((predForRec labels prob).map Prod.fst) labels) := by
  refine ⟨rfl, argsortDesc_perm prob, argsortDesc_pairwise prob, ?_⟩
  intro hlen
  have h1 : (predForRec labels prob).map Prod.fst =
      (argsortDesc prob).map (fun idx => labels.getD idx "") := by
    rw [predForRec, List.map_map]
    rfl
  rw [h1]
  have h2 : List.Perm ((argsortDesc prob).map (fun idx => labels.getD idx ""))
      ((List.range prob.length).map (fun idx => labels.getD idx "")) :=
    (argsortDesc_perm prob).map _
  rw [hlen] at h2
  rw [map_getD_range labels ""] at h2
  exact h2

/-- Witness for C6: the amended statement evaluated on the concrete tied
multi-label row `[1, 1]`. -/
theorem C6_pred_sorted_desc_ties_reverse_vocab_witness :
    predForRec ["X", "Y"] [1, 1] =
      (argsortDesc [1, 1]).map
        (fun idx => (["X", "Y"].getD idx "", ([1, 1] : List ℚ).getD idx 0)) ∧
    List.Perm (argsortDesc [1, 1]) (List.range 2) ∧
    ([1, 1] : List ℚ).length = (["X", "Y"] : List String).length ∧
    List.Perm ((predForRec ["X", "Y"] [1, 1]).map Prod.fst) ["X", "Y"] := by
  have h := C6_pred_sorted_desc_ties_reverse_vocab ["X", "Y"] [1, 1]
  exact ⟨h.1, h.2.1, by decide, h.2.2.2 (by decide)⟩

/-- Under in-range votes, the total vote count is the number of
non-abstaining entries. -/
theorem singleLabelCounts_sum_nonabstain (k : Nat) (row : List Int)
    (hval : ∀ v ∈ row, v = -1 ∨ (0 ≤ v ∧ v < (k : Int))) :
    (singleLabelCounts k row).sum =
      row.countP (fun v => decide (v ≠ -1)) := by
  rw [singleLabelCounts_sum]
  apply List.countP_congr
  intro v hv
  rcases hval v hv with h | h
  · subst h; simp
  · simp only [decide_eq_true_eq]
    constructor
    · intro _; omega
    · intro _; exact h

/-- **C7** (confirmed).  Single-label probabilities, with vote codes in range:
if at least one rule does not abstain, the row is exactly the per-label counts
divided by their sum and the entries sum to exactly 1 (hence to 1.0 within
1e-8); if every rule abstains, the row is exactly the uniform distribution
`1/k`. -/
theorem C7_single_label_probabilities (k : Nat) (row : List Int)
    (hval : ∀ v ∈ row, v = -1 ∨ (0 ≤ v ∧ v < (k : Int))) :
    ((∃ v ∈ row, v ≠ -1) →
      computeSingleLabelProbsRow k row =
        (singleLabelCounts k row).map
          (fun (c : Nat) => (c : ℚ) / ((singleLabelCounts k row).sum : ℚ)) ∧
      (computeSingleLabelProbsRow k row).sum = 1) ∧
    ((∀ v ∈ row, v = -1) →
      computeSingleLabelProbsRow k row = List.replicate k (1 / (k : ℚ))) := by
  constructor
  · rintro ⟨v, hv, hvne⟩
    have hs : (singleLabelCounts k row).sum ≠ 0 := by
      rw [singleLabelCounts_sum_nonabstain k row hval]
      have : 0 < row.countP (fun v => decide (v ≠ -1)) :=
        List.countP_pos_iff.mpr ⟨v, hv, by simpa using hvne⟩
      omega
    have heq : computeSingleLabelProbsRow k row =
        (singleLabelCounts k row).map
          (fun (c : Nat) => (c : ℚ) / ((singleLabelCounts k row).sum : ℚ)) := by
      unfold computeSingleLabelProbsRow
      simp only [if_neg hs]
    refine ⟨heq, ?_⟩
    rw [heq, sum_map_div, div_self]
    exact_mod_cast hs
  · intro hall
    have hs : (singleLabelCounts k row).sum = 0 := by
      rw [singleLabelCounts_sum_nonabstain k row hval]
      rw [List.countP_eq_zero]
      intro v hv
      simp [hall v hv]
    unfold computeSingleLabelProbsRow
    simp only [if_pos hs]
    rw [List.map_const']
    simp

/-- Witness for C7: vocabulary size 3, votes `[A, A, B]` normalize to
`[2/3, 1/3, 0]` summing to 1; an all-abstain row yields the uniform
distribution. -/
theorem C7_single_label_probabilities_witness :
    (computeSingleLabelProbsRow 3 [0, 0, 1] =
        (singleLabelCounts 3 [0, 0, 1]).map
          (fun (c : Nat) =>
            (c : ℚ) / ((singleLabelCounts 3 [0, 0, 1]).sum : ℚ)) ∧
      (computeSingleLabelProbsRow 3 [0, 0, 1]).sum = 1) ∧
    computeSingleLabelProbsRow 3 [-1, -1] = List.replicate 3 (1 / (3 : ℚ)) := by
  have h := C7_single_label_probabilities 3 [0, 0, 1]
    (by intro v hv; fin_cases hv <;> simp)
  have h2 := C7_single_label_probabilities 3 [-1, -1]
    (by intro v hv; fin_cases hv <;> simp)
  exact ⟨h.1 ⟨0, by decide, by decide⟩,
    h2.2 (by intro v hv; fin_cases hv <;> rfl)⟩

/-- **C8** (confirmed).  Multi-label probabilities, with votes in `{-1,0,1}`
and every rule row of width `k`: the raw-sum test `sum = -(k * n_rules)` holds
iff every rule abstained on every label; in that case the whole row becomes
`NaN` (`none`); otherwise the entry for label `j` is `1.0` iff some rule
assigns `j` the vote `1` (abstain `-1` is first mapped to `0`, so abstention
is never evidence), and `0.0` otherwise. -/
theorem C8_multi_label_probabilities (k : Nat) (row : List (List Int))
    (hshape : ∀ r ∈ row, r.length = k)
    (hval : ∀ r ∈ row, ∀ v ∈ r, v = -1 ∨ v = 0 ∨ v = 1) :
    ((row.map (fun rule => rule.sum)).sum = -((k : Int) * (row.length : Int)) ↔
      ∀ r ∈ row, ∀ v ∈ r, v = -1) ∧
    ((∀ r ∈ row, ∀ v ∈ r, v = -1) →
      multiLabelProbsRow k row = List.replicate k (none : Option ℚ)) ∧
    (¬(∀ r ∈ row, ∀ v ∈ r, v = -1) →
      ∀ j, j < k →
        (multiLabelProbsRow k row).getD j none =
          some (if row.any (fun rule => rule.getD j 0 == 1) then 1 else 0)) := by
  have hge : ∀ r ∈ row, ∀ v ∈ r, -1 ≤ v := by
    intro r hr v hv
    rcases hval r hr v hv with h | h | h <;> omega
  have hiff := rules_sum_eq_iff k row hshape hge
  refine ⟨hiff, ?_, ?_⟩
  · intro hall
    have hcond : (row.map (fun rule => rule.sum)).sum =
        -((k : Int) * (row.length : Int)) := hiff.mpr hall
    unfold multiLabelProbsRow
    simp only [if_pos hcond]
    rw [List.map_const']
    simp
  · intro hnot
    intro j hj
    have hcond : ¬((row.map (fun rule => rule.sum)).sum =
        -((k : Int) * (row.length : Int))) := fun hc => hnot (hiff.mp hc)
    unfold multiLabelProbsRow
    simp only [if_neg hcond]
    have hjr : j < (List.range k).length := by simpa using hj
    rw [getD_map_lt
      (fun (c : Int) => if 0 < c then (some 1 : Option ℚ) else some 0)
      _ j none 0 (by simpa using hj)]
    rw [getD_map_lt
      (fun (jj : Nat) =>
        (row.map (fun rule =>
          if rule.getD jj 0 = -1 then 0 else rule.getD jj 0)).sum)
      _ j 0 0 hjr]
    have hjval : (List.range k).getD j 0 = j := by
      rw [List.getD_eq_getElem?_getD, List.getElem?_range hj]
      rfl
    rw [hjval]
    have hnn : ∀ x ∈ row.map (fun rule =>
        if rule.getD j 0 = -1 then 0 else rule.getD j 0), 0 ≤ x := by
      intro x hx
      obtain ⟨rule, hrule, hxe⟩ := List.mem_map.mp hx
      by_cases hgd : rule.getD j 0 = -1
      · rw [if_pos hgd] at hxe; omega
      · rw [if_neg hgd] at hxe
        have hjlen : j < rule.length := by rw [hshape rule hrule]; exact hj
        have hmem : rule.getD j 0 ∈ rule := by
          rw [List.getD_eq_getElem?_getD, List.getElem?_eq_getElem hjlen]
          exact List.getElem_mem hjlen
        rcases hval rule hrule _ hmem with h | h | h <;> omega
    have hpos := sum_pos_iff_exists _ hnn
    by_cases hx : ∃ rule ∈ row, rule.getD j 0 = 1
    · have h1 : 0 < (row.map (fun rule =>
          if rule.getD j 0 = -1 then 0 else rule.getD j 0)).sum := by
        obtain ⟨rule, hrule, h1⟩ := hx
        refine hpos.mpr ⟨if rule.getD j 0 = -1 then 0 else rule.getD j 0,
          List.mem_map.mpr ⟨rule, hrule, rfl⟩, ?_⟩
        rw [h1]
        norm_num
      have h2 : row.any (fun rule => rule.getD j 0 == 1) = true :=
        List.any_eq_true.mpr
          (by obtain ⟨rule, hrule, h1⟩ := hx
              exact ⟨rule, hrule, by simpa using h1⟩)
      rw [if_pos h1, if_pos h2]
    · have h1 : ¬(0 < (row.map (fun rule =>
          if rule.getD j 0 = -1 then 0 else rule.getD j 0)).sum) := by
        intro hcontra
        obtain ⟨x, hxmem, hxpos⟩ := hpos.mp hcontra
        obtain ⟨rule, hrule, hxe⟩ := List.mem_map.mp hxmem
        apply hx
        refine ⟨rule, hrule, ?_⟩
        by_cases hgd : rule.getD j 0 = -1
        · rw [if_pos hgd] at hxe; omega
        · rw [if_neg hgd] at hxe
          have hjlen : j < rule.length := by rw [hshape rule hrule]; exact hj
          have hmem : rule.getD j 0 ∈ rule := by
            rw [List.getD_eq_getElem?_getD, List.getElem?_eq_getElem hjlen]
            exact List.getElem_mem hjlen
          rcases hval rule hrule _ hmem with h | h | h <;> omega
      have h2 : row.any (fun rule => rule.getD j 0 == 1) = false := by
        rw [List.any_eq_false]
        intro rule hrule
        intro hc
        exact hx ⟨rule, hrule, by simpa using hc⟩
      rw [if_neg h1, h2]
      simp

/-- Witness for C8: two rules over two labels, rule 0 voting `X` and rule 1
voting `Y` (not all abstained, both entries 1), and a fully abstaining record
(all entries `-1`, row becomes `NaN`). -/
theorem C8_multi_label_probabilities_witness :
    ((([[1, 0], [0, 1]] : List (List Int)).map
        (fun rule => rule.sum)).sum = -((2 : Int) * (2 : Int)) ↔
      ∀ r ∈ ([[1, 0], [0, 1]] : List (List Int)), ∀ v ∈ r, v = -1) ∧
    multiLabelProbsRow 2 [[-1, -1], [-1, -1]] =
      List.replicate 2 (none : Option ℚ) ∧
    (multiLabelProbsRow 2 [[1, 0], [0, 1]]).getD 0 none =
      some (if ([[1, 0], [0, 1]] : List (List Int)).any
        (fun rule => rule.getD 0 0 == 1) then 1 else 0) := by
  have h1 := C8_multi_label_probabilities 2 [[1, 0], [0, 1]]
    (by intro r hr; fin_cases hr <;> rfl)
    (by intro r hr; fin_cases hr <;> (intro v hv; fin_cases hv <;> simp))
  have h2 := C8_multi_label_probabilities 2 [[-1, -1], [-1, -1]]
    (by intro r hr; fin_cases hr <;> rfl)
    (by intro r hr; fin_cases hr <;> (intro v hv; fin_cases hv <;> simp))
  refine ⟨h1.1, ?_, ?_⟩
  · exact h2.2.1 (by intro r hr; fin_cases hr <;> (intro v hv; fin_cases hv <;> rfl))
  · exact h1.2.2 (by decide) 0 (by decide)

/-! ## Row-local structure of the RANDOM paths -/

theorem getD_range_map {β : Type} (g : Nat → β) (n i : Nat) (d : β)
    (h : i < n) : ((List.range n).map g).getD i d = g i := by
  rw [getD_map_lt g (List.range n) i d 0 (by simpa using h)]
  congr 1
  rw [List.getD_eq_getElem?_getD, List.getElem?_range h]
  rfl

/-- Under RANDOM, `_score_single_label` always succeeds and returns the
unfiltered annotation array together with the per-row tie-resolved
predictions. -/
theorem score_single_label_random (probs : List (List ℚ)) (ann : List Nat) :
    score_single_label probs ann .RANDOM =
      .ok (ann, scorePredictionsRandom probs) := by
  unfold score_single_label
  cases hany : probs.any isTied with
  | true => simp
  | false =>
      rw [if_pos rfl]
      simp only [Except.ok.injEq, Prod.mk.injEq, true_and]
      apply List.ext_getElem
      · simp [scorePredictionsRandom]
      · intro i h1 h2
        have hi : i < probs.length := by simpa using h1
        have hnot : ∀ p ∈ probs, isTied p = false := by
          intro p hp
          have := List.any_eq_false.mp hany p hp
          simpa using this
        have hmem : probs.getD i [] ∈ probs := by
          rw [List.getD_eq_getElem?_getD, List.getElem?_eq_getElem hi]
          exact List.getElem_mem hi
        have htied := hnot _ hmem
        have hgd : probs.getD i [] = probs[i] := by
          rw [List.getD_eq_getElem?_getD, List.getElem?_eq_getElem hi]
          rfl
        have hrhs : (scorePredictionsRandom probs)[i] =
            firstMaxIdx (probs.getD i []) := by
          have : (scorePredictionsRandom probs)[i] =
              (scorePredictionsRandom probs).getD i 0 := by
            rw [List.getD_eq_getElem?_getD, List.getElem?_eq_getElem h2]
            rfl
          rw [this, scorePredictionsRandom, getD_range_map _ _ _ _ hi]
          simp only [isTied] at htied
          rw [if_neg (by simpa using htied)]

        rw [hrhs, List.getElem_map, ← hgd]

theorem scorePredictionsRandom_getD (probs : List (List ℚ)) (i : Nat)
    (h : i < probs.length) :
    (scorePredictionsRandom probs).getD i 0 =
      (if 1 < (equalProbIdx (probs.getD i [])).length then
        (equalProbIdx (probs.getD i [])).getD
          (randomIdx i (equalProbIdx (probs.getD i [])).length) 0
      else firstMaxIdx (probs.getD i [])) := by
  rw [scorePredictionsRandom, getD_range_map _ _ _ _ h]

/-- **C9** (confirmed).  Determinism and row-locality of the RANDOM tie break:
predict is a pure function (two runs are equal), it never fails under RANDOM,
and the record emitted at position `i` — like the score path's prediction at
index `i` — depends only on the row index `i` and that row's own matrix
contents, never on the other rows (the hash input is the row index alone). -/
theorem C9_random_deterministic_and_row_local (labels : List String)
    (recs : List TextClassificationRecord) (incl1 incl2 : Bool)
    (agent : String) (wl1 wl2 : List (List Int)) (ann : List Nat) (i : Nat)
    (h1 : i < wl1.length) (h2 : i < wl2.length) (hr : i < recs.length)
    (hrow : wl1.getD i [] = wl2.getD i []) :
    predict labels wl1 recs incl1 agent .RANDOM =
      predict labels wl1 recs incl1 agent .RANDOM ∧
    (∃ o1 o2, predict labels wl1 recs incl1 agent .RANDOM = .ok o1 ∧
       predict labels wl2 recs incl2 agent .RANDOM = .ok o2 ∧
       o1.getD i default = o2.getD i default) ∧
    score_single_label (compute_single_label_probs labels.length wl1) ann
        .RANDOM =
      .ok (ann, scorePredictionsRandom
        (compute_single_label_probs labels.length wl1)) ∧
    (scorePredictionsRandom
        (compute_single_label_probs labels.length wl1)).getD i 0 =
      (scorePredictionsRandom
        (compute_single_label_probs labels.length wl2)).getD i 0 := by
  have hp1 : (compute_single_label_probs labels.length wl1).getD i [] =
      computeSingleLabelProbsRow labels.length (wl1.getD i []) := by
    rw [compute_single_label_probs, getD_map_lt _ _ _ _ [] h1]
  have hp2 : (compute_single_label_probs labels.length wl2).getD i [] =
      computeSingleLabelProbsRow labels.length (wl2.getD i []) := by
    rw [compute_single_label_probs, getD_map_lt _ _ _ _ [] h2]
  have hpe : (compute_single_label_probs labels.length wl1).getD i [] =
      (compute_single_label_probs labels.length wl2).getD i [] := by
    rw [hp1, hp2, hrow]
  have hl1 : (compute_single_label_probs labels.length wl1).length =
      wl1.length := by simp [compute_single_label_probs]
  have hl2 : (compute_single_label_probs labels.length wl2).length =
      wl2.length := by simp [compute_single_label_probs]
  refine ⟨rfl, ?_, score_single_label_random _ ann, ?_⟩
  · refine ⟨(enumZip 0 (compute_single_label_probs labels.length wl1)
        recs).map (fun t =>
          emitRecord agent t.2.2 (some (randomRowPred labels t.1 t.2.1))),
      (enumZip 0 (compute_single_label_probs labels.length wl2)
        recs).map (fun t =>
          emitRecord agent t.2.2 (some (randomRowPred labels t.1 t.2.1))),
      ?_, ?_, ?_⟩
    · rw [predict, make_single_label_records, processRows_random]
    · rw [predict, make_single_label_records, processRows_random]
    · have hlen1 : i < (enumZip 0
          (compute_single_label_probs labels.length wl1) recs).length := by
        rw [enumZip_length]; omega
      have hlen2 : i < (enumZip 0
          (compute_single_label_probs labels.length wl2) recs).length := by
        rw [enumZip_length]; omega
      rw [getD_map_lt _ _ _ _ (0, [], default) hlen1,
        getD_map_lt _ _ _ _ (0, [], default) hlen2]
      rw [enumZip_getD 0 i _ recs (by omega) hr,
        enumZip_getD 0 i _ recs (by omega) hr]
      simp only [Nat.zero_add]
      rw [hpe]
  · rw [scorePredictionsRandom_getD _ i (by omega),
      scorePredictionsRandom_getD _ i (by omega), hpe]

/-- Witness for C9: two matrices that agree on row 0 (but differ in size)
produce the same emitted record and the same score prediction at index 0. -/
theorem C9_random_deterministic_and_row_local_witness :
    (∃ o1 o2,
      predict ["A", "B"] [[0, 1]] [{ id := 7 }] true "MajorityVoter" .RANDOM =
        .ok o1 ∧
      predict ["A", "B"] [[0, 1], [0, 0]] [{ id := 7 }] false "MajorityVoter"
          .RANDOM = .ok o2 ∧
      o1.getD 0 default = o2.getD 0 default) ∧
    (scorePredictionsRandom
        (compute_single_label_probs 2 [[0, 1]])).getD 0 0 =
      (scorePredictionsRandom
        (compute_single_label_probs 2 [[0, 1], [0, 0]])).getD 0 0 := by
  have h := C9_random_deterministic_and_row_local ["A", "B"] [{ id := 7 }]
    true false "MajorityVoter" [[0, 1]] [[0, 1], [0, 0]] [] 0
    (by decide) (by decide) (by decide) (by decide)
  exact ⟨h.2.1, h.2.2.2⟩

/-- **C10** (confirmed).  Drop behaviour of single-label predict: a row is
skipped exactly when it is tied, the policy is ABSTAIN and
`include_abstentions` is false; under RANDOM every zipped input record yields
exactly one output record at the same position (so with aligned lengths the
output has one record per input, ids in input order) and the
`include_abstentions` flag has no effect; and whenever predict succeeds the
output is the in-order `filterMap` of the per-row outcomes. -/
theorem C10_drop_only_tied_abstain (labels : List String)
    (wl : List (List Int)) (recs : List TextClassificationRecord)
    (agent : String) (incl : Bool) (hlen : wl.length = recs.length) :
    (∀ (policy : TieBreakPolicy) (i : Nat) (prob : List ℚ),
        singleRowOutcome labels incl policy i prob = .skipped ↔
          (incl = false ∧ isTied prob = true ∧ policy = .ABSTAIN)) ∧
    (∃ o, predict labels wl recs incl agent .RANDOM = .ok o ∧
       o.length = recs.length ∧
       ∀ j, j < recs.length →
         (o.getD j default).id = (recs.getD j default).id) ∧
    (predict labels wl recs true agent .RANDOM =
       predict labels wl recs false agent .RANDOM) ∧
    (∀ (policy : TieBreakPolicy) (o : List TextClassificationRecord),
       predict labels wl recs incl agent policy = .ok o →
       o = (enumZip 0 (compute_single_label_probs labels.length wl)
         recs).filterMap (rowEmitOpt labels incl agent policy)) := by
  have hpl : (compute_single_label_probs labels.length wl).length =
      wl.length := by simp [compute_single_label_probs]
  refine ⟨singleRowOutcome_skipped_iff labels incl, ?_, ?_, ?_⟩
  · refine ⟨(enumZip 0 (compute_single_label_probs labels.length wl)
        recs).map (fun t =>
          emitRecord agent t.2.2 (some (randomRowPred labels t.1 t.2.1))),
      ?_, ?_, ?_⟩
    · rw [predict, make_single_label_records, processRows_random]
    · rw [List.length_map, enumZip_length, hpl, hlen]
      omega
    · intro j hj
      have hjz : j < (enumZip 0
          (compute_single_label_probs labels.length wl) recs).length := by
        rw [enumZip_length, hpl, hlen]; omega
      rw [getD_map_lt _ _ _ _ (0, [], default) hjz]
      rw [enumZip_getD 0 j _ recs (by omega) hj]
      rfl
  · rw [predict, make_single_label_records, processRows_random,
      predict, make_single_label_records, processRows_random]
  · intro policy o h
    exact processRows_ok_filterMap labels incl agent policy _ o h

/-- Witness for C10: two records, one tied row and one untied row, under
RANDOM with `include_abstentions = false`. -/
theorem C10_drop_only_tied_abstain_witness :
    (singleRowOutcome ["A", "B"] false .ABSTAIN 0
        (computeSingleLabelProbsRow 2 [0, 1]) = .skipped ↔
      (false = false ∧ isTied (computeSingleLabelProbsRow 2 [0, 1]) = true ∧
        TieBreakPolicy.ABSTAIN = .ABSTAIN)) ∧
    (∃ o, predict ["A", "B"] [[0, 1], [0, 0]] [{ id := 3 }, { id := 4 }] false
        "MajorityVoter" .RANDOM = .ok o ∧
      o.length = 2 ∧
      ∀ j, j < 2 →
        (o.getD j default).id =
          (([{ id := 3 }, { id := 4 }] :
            List TextClassificationRecord).getD j default).id) := by
  have h := C10_drop_only_tied_abstain ["A", "B"] [[0, 1], [0, 0]]
    [{ id := 3 }, { id := 4 }] "MajorityVoter" false (by decide)
  exact ⟨h.1 .ABSTAIN 0 (computeSingleLabelProbsRow 2 [0, 1]), h.2.1⟩

end Rubrix
